import Mathlib

/-!
Shallow embedding of the WFC grid solver from `src/main.rs`.

The source is a Bevy app; the solver core is embedded here as pure
functions over a list of tiles.  ECS entities are modelled as list
indices (the snapshot order of the query is the list order), sprites
and colors are presentation-only and dropped, and the RNG draw
`slice.choose(&mut rng)` is modelled by indexing with `r % len` for an
externally supplied random seed `r : Nat`, so that a uniformly random
`r` induces the uniform choice of the source.  `Option` marks the one
genuine panic point of `collapse_step` (`choose(..).unwrap()` on an
empty slice); the remaining `unwrap()`s in the source are on lookups
that are justified separately (`getD` with a default stands for them).
-/

namespace WFC

/-- `enum TileType { Sand, Water, Grass }` from the source. -/
inductive TileType where
  | Sand
  | Water
  | Grass
deriving DecidableEq, Repr

instance : Inhabited TileType := ⟨TileType.Sand⟩

/-- `enum Direction { Up, Down, Left, Right }` from the source. -/
inductive Direction where
  | Up
  | Down
  | Left
  | Right
deriving DecidableEq, Repr

/-- `struct Tile { possible, collapsed, x, y }` from the source
(the `Sprite` component is presentation-only and omitted). -/
structure Tile where
  possible : List TileType
  collapsed : Bool
  x : Nat
  y : Nat
deriving DecidableEq, Repr

instance : Inhabited Tile := ⟨⟨[], false, 0, 0⟩⟩

/-- The literal `vec![TileType::Sand, TileType::Water, TileType::Grass]`
that the source writes out in `setup` and in the propagation reset rule. -/
def allTileTypes : List TileType := [TileType.Sand, TileType.Water, TileType.Grass]

/-- `fn allowed_neighbor(tile, neighbor, _dir) -> bool` from the source. -/
def allowed_neighbor (tile neighbor : TileType) (_dir : Direction) : Bool :=
  match tile with
  | TileType.Water =>
    match neighbor with
    | TileType.Water => true
    | TileType.Sand => true
    | _ => false
  | TileType.Sand => true
  | TileType.Grass =>
    match neighbor with
    | TileType.Grass => true
    | TileType.Sand => true
    | _ => false

/-- `fn setup` from the source, with the grid dimensions `GRID_W`/`GRID_H`
made parameters: spawns, for `y in 0..H` and `x in 0..W`, a tile with the
full category list and `collapsed = false`. -/
def setup (W H : Nat) : List Tile :=
  (List.range H).flatMap (fun y =>
    (List.range W).map (fun x =>
      { possible := allTileTypes, collapsed := false, x := x, y := y }))

/-- `fn neighbor_coords(x, y)` from the source (push order: up, down,
right, left), with the grid dimensions made parameters. -/
def neighbor_coords (W H x y : Nat) : List (Nat × Nat) :=
  (if y + 1 < H then [(x, y + 1)] else []) ++
  (if y > 0 then [(x, y - 1)] else []) ++
  (if x + 1 < W then [(x + 1, y)] else []) ++
  (if x > 0 then [(x - 1, y)] else [])

/-- `fn entity_at(x, y, snapshot)` from the source: index of the first
tile of the snapshot with the given coordinates. -/
def entity_at (x y : Nat) (snapshot : List Tile) : Option Nat :=
  (snapshot.enum.find? (fun it => it.2.x == x && it.2.y == y)).map (fun it => it.1)

/-- `fn neighbor_direction(x1, y1, x2, y2)` from the source. -/
def neighbor_direction (x1 y1 x2 y2 : Nat) : Option Direction :=
  if x1 = x2 ∧ y1 + 1 = y2 then some Direction.Up
  else if x1 = x2 ∧ y1 = y2 + 1 then some Direction.Down
  else if x1 + 1 = x2 ∧ y1 = y2 then some Direction.Right
  else if x1 = x2 + 1 ∧ y1 = y2 then some Direction.Left
  else none

/-- The `candidates` list of `collapse_step`: `(entity, |possible|)` for
every snapshot tile with `!collapsed && !possible.is_empty()`. -/
def candidatesOf (g : List Tile) : List (Nat × Nat) :=
  (g.enum.filter (fun it => !it.2.collapsed && !it.2.possible.isEmpty)).map
    (fun it => (it.1, it.2.possible.length))

/-- The comparison Rust's stable `sort_by_key(|(_, len)| *len)` sorts by. -/
def keyLe (a b : Nat × Nat) : Prop := a.2 ≤ b.2

instance : DecidableRel keyLe := fun a b => Nat.decLe a.2 b.2

/-- `candidates.sort_by_key(..); candidates[0].0` of the source:
Rust's `sort_by_key` is a stable sort, embedded as `insertionSort`
(stable, same key order); the selected entity is the head. -/
def selectEntity (g : List Tile) : Nat :=
  ((List.insertionSort keyLe (candidatesOf g)).headD (0, 0)).1

/-- The `valid_choices` filter of `collapse_step`: members of the selected
tile's domain such that every in-bounds neighbor's snapshot domain holds
some category allowed next to the choice.  The source's
`neighbor_direction(..).unwrap()` is embedded as `getD Direction.Up`; the
default is never reached (see `neighbor_direction_of_mem_neighbor_coords`). -/
def validChoices (W H : Nat) (g : List Tile) (sel : Nat) : List TileType :=
  let tile := g.getD sel default
  tile.possible.filter (fun choice =>
    (neighbor_coords W H tile.x tile.y).all (fun c =>
      match entity_at c.1 c.2 g with
      | some ne =>
        ((g.getD ne default).possible).any (fun n =>
          allowed_neighbor choice n
            ((neighbor_direction tile.x tile.y c.1 c.2).getD Direction.Up))
      | none => true))

/-- The slice the source draws the collapse category from:
`valid_choices` if non-empty, else the tile's full current `possible`. -/
def choicePool (W H : Nat) (g : List Tile) (sel : Nat) : List TileType :=
  if (validChoices W H g sel).isEmpty then (g.getD sel default).possible
  else validChoices W H g sel

/-- The collapse category drawn at random seed `r`:
`pool.choose(&mut rng)` embedded as indexing with `r % pool.length`. -/
def chosenChoice (W H r : Nat) (g : List Tile) : TileType :=
  let pool := choicePool W H g (selectEntity g)
  pool.getD (r % pool.length) default

/-- One iteration of the propagation loop of `collapse_step`, acting on
the tile at index `i` whose current value is `t`: skip the collapsed
entity and tiles whose snapshot `collapsed` flag is set; for an
axis-aligned neighbor of the collapsed cell, keep the allowed categories
and reset to the full list when that filter comes out empty. -/
def propagate_tile (choice : TileType) (cx cy sel : Nat) (snapshot : List Tile)
    (i : Nat) (t : Tile) : Tile :=
  if i = sel ∨ (snapshot.getD i default).collapsed then t
  else
    match neighbor_direction cx cy (snapshot.getD i default).x
        (snapshot.getD i default).y with
    | some dir =>
      { t with
          possible :=
            if (t.possible.filter (fun n => allowed_neighbor choice n dir)).isEmpty
            then allTileTypes
            else t.possible.filter (fun n => allowed_neighbor choice n dir) }
    | none => t

/-- The grid produced by a collapsing `collapse_step` invocation: the
selected tile is set to the singleton chosen domain with
`collapsed = true`, then the propagation loop runs over every entity
(the snapshot controls the loop, the current tiles are mutated). -/
def stepResult (W H r : Nat) (g : List Tile) : List Tile :=
  let sel := selectEntity g
  let choice := chosenChoice W H r g
  let tile := g.getD sel default
  let g1 := g.set sel { tile with possible := [choice], collapsed := true }
  (List.range g1.length).map (fun i =>
    propagate_tile choice tile.x tile.y sel g i (g1.getD i default))

/-- `fn collapse_step` from the source.  `none` is the one genuine panic
point, `choose(&mut rng).unwrap()` on an empty slice, reached exactly
when the pool drawn from is empty; an empty candidate list is the
source's early `return`. -/
def collapse_step (W H r : Nat) (g : List Tile) : Option (List Tile) :=
  if (candidatesOf g).isEmpty then some g
  else if (choicePool W H g (selectEntity g)).isEmpty then none
  else some (stepResult W H r g)

/-- The driving loop: `run W H rs n` is the grid after `n` `collapse_step`
invocations from `setup`, the `n`-th invocation using random seed `rs n`
(a failing step would leave the grid unchanged; it never fails). -/
def run (W H : Nat) (rs : Nat → Nat) : Nat → List Tile
  | 0 => setup W H
  | n + 1 => (collapse_step W H (rs n) (run W H rs n)).getD (run W H rs n)

/-- Number of resolved cells of a grid. -/
def numCollapsed (g : List Tile) : Nat := g.countP (fun t => t.collapsed)

/-- The first pair of minimal key in a list of `(entity, key)` pairs;
characterizes the head of the stable sort used by `selectEntity`. -/
def firstMinKey : List (Nat × Nat) → Nat × Nat
  | [] => (0, 0)
  | [a] => a
  | a :: b :: l => if a.2 ≤ (firstMinKey (b :: l)).2 then a else firstMinKey (b :: l)

theorem firstMinKey_mem : ∀ (c : List (Nat × Nat)), c ≠ [] → firstMinKey c ∈ c := by
  intro c
  induction c with
  | nil => intro h; exact absurd rfl h
  | cons a t ih =>
    intro _
    cases t with
    | nil => simp [firstMinKey]
    | cons b l =>
      simp only [firstMinKey]
      split
      · exact List.mem_cons_self _ _
      · exact List.mem_cons_of_mem _ (ih (List.cons_ne_nil _ _))

theorem firstMinKey_le : ∀ (c : List (Nat × Nat)), ∀ p ∈ c, (firstMinKey c).2 ≤ p.2 := by
  intro c
  induction c with
  | nil => intro p hp; exact absurd hp (List.not_mem_nil p)
  | cons a t ih =>
    cases t with
    | nil =>
      intro p hp
      rw [List.mem_singleton] at hp
      subst hp
      simp [firstMinKey]
    | cons b l =>
      intro p hp
      simp only [firstMinKey]
      by_cases hle : a.2 ≤ (firstMinKey (b :: l)).2
      · rw [if_pos hle]
        rcases List.mem_cons.mp hp with rfl | hp2
        · exact Nat.le_refl _
        · exact Nat.le_trans hle (ih p hp2)
      · rw [if_neg hle]
        rcases List.mem_cons.mp hp with rfl | hp2
        · exact Nat.le_of_lt (Nat.lt_of_not_le hle)
        · exact ih p hp2

theorem firstMinKey_fst_le :
    ∀ (c : List (Nat × Nat)), List.Pairwise (fun a b : Nat × Nat => a.1 < b.1) c →
      ∀ p ∈ c, p.2 ≤ (firstMinKey c).2 → (firstMinKey c).1 ≤ p.1 := by
  intro c
  induction c with
  | nil => intro _ p hp; exact absurd hp (List.not_mem_nil p)
  | cons a t ih =>
    intro hpw
    rw [List.pairwise_cons] at hpw
    obtain ⟨ha, hpw2⟩ := hpw
    cases t with
    | nil =>
      intro p hp _
      rw [List.mem_singleton] at hp
      subst hp
      exact Nat.le_refl _
    | cons b l =>
      intro p hp hple
      simp only [firstMinKey] at hple ⊢
      by_cases hle : a.2 ≤ (firstMinKey (b :: l)).2
      · rw [if_pos hle] at hple ⊢
        rcases List.mem_cons.mp hp with rfl | hp2
        · exact Nat.le_refl _
        · exact Nat.le_of_lt (ha p hp2)
      · rw [if_neg hle] at hple ⊢
        rcases List.mem_cons.mp hp with rfl | hp2
        · exact absurd hple hle
        · exact ih hpw2 p hp2 hple

/-- The head of the stable ascending sort used by the source's
`sort_by_key` is the first pair of minimal key. -/
theorem headD_insertionSort :
    ∀ (c : List (Nat × Nat)), c ≠ [] →
      (List.insertionSort keyLe c).headD (0, 0) = firstMinKey c := by
  intro c
  induction c with
  | nil => intro h; exact absurd rfl h
  | cons a t ih =>
    intro _
    cases t with
    | nil => simp [List.insertionSort, List.orderedInsert, firstMinKey]
    | cons b l =>
      have hne : List.insertionSort keyLe (b :: l) ≠ [] := by
        intro hnil
        have hlen := List.length_insertionSort (r := keyLe) (b :: l)
        rw [hnil] at hlen
        exact absurd hlen.symm (by simp)
      obtain ⟨h0, s, hs⟩ := List.exists_cons_of_ne_nil hne
      have hh : h0 = firstMinKey (b :: l) := by
        have hihd := ih (List.cons_ne_nil _ _)
        rw [hs] at hihd
        simpa using hihd
      show (List.insertionSort keyLe (a :: b :: l)).headD (0, 0) = firstMinKey (a :: b :: l)
      rw [show List.insertionSort keyLe (a :: b :: l) =
          List.orderedInsert keyLe a (List.insertionSort keyLe (b :: l)) from rfl, hs]
      simp only [List.orderedInsert, firstMinKey, ← hh]
      by_cases hle : a.2 ≤ h0.2
      · rw [if_pos (show keyLe a h0 from hle), if_pos hle]
        simp
      · rw [if_neg (show ¬keyLe a h0 from hle), if_neg hle]
        simp

/-- Elements of the candidate list are exactly the indices of snapshot
tiles with `!collapsed && !possible.is_empty()`, paired with the domain
size. -/
theorem mem_candidatesOf {g : List Tile} {i k : Nat} :
    (i, k) ∈ candidatesOf g ↔
      i < g.length ∧ (g.getD i default).collapsed = false ∧
        (g.getD i default).possible ≠ [] ∧ k = (g.getD i default).possible.length := by
  constructor
  · intro h
    obtain ⟨⟨j, t⟩, hjt, heq⟩ := List.mem_map.mp h
    obtain ⟨henum, hp⟩ := List.mem_filter.mp hjt
    obtain ⟨hi, ht⟩ := List.getElem?_eq_some_iff.mp (List.mk_mem_enum_iff_getElem?.mp henum)
    simp only [Prod.mk.injEq] at heq
    obtain ⟨rfl, rfl⟩ := heq
    simp only [Bool.and_eq_true, Bool.not_eq_true'] at hp
    obtain ⟨hc, hemp⟩ := hp
    have hgd : g.getD j default = t := by rw [List.getD_eq_getElem g default hi, ht]
    refine ⟨hi, ?_, ?_, ?_⟩ <;> rw [hgd]
    · exact hc
    · intro hnil
      rw [hnil] at hemp
      simp at hemp
  · rintro ⟨hi, hc, hp, rfl⟩
    refine List.mem_map.mpr ⟨(i, g.getD i default), List.mem_filter.mpr ⟨?_, ?_⟩, rfl⟩
    · refine List.mk_mem_enum_iff_getElem?.mpr ?_
      rw [List.getD_eq_getElem g default hi]
      exact List.getElem?_eq_getElem hi
    · simp only [Bool.and_eq_true, Bool.not_eq_true']
      exact ⟨hc, by simpa using hp⟩

/-- Candidate entities appear in strictly increasing snapshot order. -/
theorem pairwise_candidatesOf (g : List Tile) :
    List.Pairwise (fun a b : Nat × Nat => a.1 < b.1) (candidatesOf g) := by
  unfold candidatesOf
  rw [List.pairwise_map]
  refine List.Pairwise.sublist (List.filter_sublist _) ?_
  rw [List.pairwise_iff_getElem]
  intro i j hi hj hij
  simpa using hij

/-- The candidate list is empty iff every tile is collapsed or has an
empty domain. -/
theorem candidatesOf_eq_nil_iff {g : List Tile} :
    candidatesOf g = [] ↔
      ∀ i, i < g.length →
        (g.getD i default).collapsed = true ∨ (g.getD i default).possible = [] := by
  constructor
  · intro h i hi
    by_cases hc : (g.getD i default).collapsed = true
    · exact Or.inl hc
    · by_cases hp : (g.getD i default).possible = []
      · exact Or.inr hp
      · exfalso
        have hmem : (i, (g.getD i default).possible.length) ∈ candidatesOf g :=
          mem_candidatesOf.mpr ⟨hi, Bool.not_eq_true _ ▸ Bool.eq_false_iff.mpr hc, hp, rfl⟩
        rw [h] at hmem
        exact List.not_mem_nil _ hmem
  · intro h
    rcases hne : candidatesOf g with _ | ⟨⟨i, k⟩, t⟩
    · rfl
    · exfalso
      have hmem : (i, k) ∈ candidatesOf g := by rw [hne]; exact List.mem_cons_self _ _
      obtain ⟨hi, hc, hp, _⟩ := mem_candidatesOf.mp hmem
      rcases h i hi with hcol | hnil
      · rw [hc] at hcol; exact Bool.false_ne_true hcol
      · exact hp hnil

/-- The selected entity is a genuine candidate: in bounds, uncollapsed,
with a non-empty domain whose size is the minimal key. -/
theorem selectEntity_spec {g : List Tile} (h : candidatesOf g ≠ []) :
    selectEntity g < g.length ∧
      (g.getD (selectEntity g) default).collapsed = false ∧
      (g.getD (selectEntity g) default).possible ≠ [] ∧
      (firstMinKey (candidatesOf g)).2 =
        (g.getD (selectEntity g) default).possible.length := by
  have hsel : selectEntity g = (firstMinKey (candidatesOf g)).1 := by
    rw [selectEntity, headD_insertionSort _ h]
  have hm : ((firstMinKey (candidatesOf g)).1, (firstMinKey (candidatesOf g)).2) ∈
      candidatesOf g := by
    simpa using firstMinKey_mem _ h
  obtain ⟨hi, hc, hp, hk⟩ := mem_candidatesOf.mp hm
  rw [hsel]
  exact ⟨hi, hc, hp, hk⟩

/-- Among candidates, the selected entity has minimal domain size, and
ties go to the smallest snapshot index. -/
theorem selectEntity_min {g : List Tile} (h : candidatesOf g ≠ []) :
    ∀ j, j < g.length → (g.getD j default).collapsed = false →
      (g.getD j default).possible ≠ [] →
      (g.getD (selectEntity g) default).possible.length ≤
          (g.getD j default).possible.length ∧
        ((g.getD j default).possible.length ≤
            (g.getD (selectEntity g) default).possible.length →
          selectEntity g ≤ j) := by
  intro j hj hc hp
  have hsel : selectEntity g = (firstMinKey (candidatesOf g)).1 := by
    rw [selectEntity, headD_insertionSort _ h]
  have hk := (selectEntity_spec h).2.2.2
  have hmem : (j, (g.getD j default).possible.length) ∈ candidatesOf g :=
    mem_candidatesOf.mpr ⟨hj, hc, hp, rfl⟩
  constructor
  · rw [← hk]
    exact firstMinKey_le (candidatesOf g) _ hmem
  · intro hle
    rw [hsel]
    exact firstMinKey_fst_le (candidatesOf g) (pairwise_candidatesOf g) _ hmem
      (by rw [hk]; exact hle)

theorem propagate_tile_of_skip {choice : TileType} {cx cy sel : Nat}
    {snapshot : List Tile} {i : Nat} {t : Tile}
    (h : i = sel ∨ (snapshot.getD i default).collapsed) :
    propagate_tile choice cx cy sel snapshot i t = t := by
  unfold propagate_tile
  rw [if_pos h]

theorem propagate_tile_of_none {choice : TileType} {cx cy sel : Nat}
    {snapshot : List Tile} {i : Nat} {t : Tile}
    (h : ¬(i = sel ∨ (snapshot.getD i default).collapsed))
    (hd : neighbor_direction cx cy (snapshot.getD i default).x
        (snapshot.getD i default).y = none) :
    propagate_tile choice cx cy sel snapshot i t = t := by
  unfold propagate_tile
  rw [if_neg h, hd]

theorem propagate_tile_of_some {choice : TileType} {cx cy sel : Nat}
    {snapshot : List Tile} {i : Nat} {t : Tile} {dir : Direction}
    (h : ¬(i = sel ∨ (snapshot.getD i default).collapsed))
    (hd : neighbor_direction cx cy (snapshot.getD i default).x
        (snapshot.getD i default).y = some dir) :
    propagate_tile choice cx cy sel snapshot i t =
      { t with
          possible :=
            if (t.possible.filter (fun n => allowed_neighbor choice n dir)).isEmpty
            then allTileTypes
            else t.possible.filter (fun n => allowed_neighbor choice n dir) } := by
  unfold propagate_tile
  rw [if_neg h, hd]

theorem propagate_tile_collapsed (choice : TileType) (cx cy sel : Nat)
    (snapshot : List Tile) (i : Nat) (t : Tile) :
    (propagate_tile choice cx cy sel snapshot i t).collapsed = t.collapsed := by
  unfold propagate_tile
  split
  · rfl
  · split <;> rfl

theorem propagate_tile_x (choice : TileType) (cx cy sel : Nat)
    (snapshot : List Tile) (i : Nat) (t : Tile) :
    (propagate_tile choice cx cy sel snapshot i t).x = t.x := by
  unfold propagate_tile
  split
  · rfl
  · split <;> rfl

theorem propagate_tile_y (choice : TileType) (cx cy sel : Nat)
    (snapshot : List Tile) (i : Nat) (t : Tile) :
    (propagate_tile choice cx cy sel snapshot i t).y = t.y := by
  unfold propagate_tile
  split
  · rfl
  · split <;> rfl

theorem getD_map_range {n i : Nat} (f : Nat → Tile) (hi : i < n) :
    ((List.range n).map f).getD i default = f i := by
  rw [List.getD_eq_getElem?_getD, List.getElem?_map, List.getElem?_range hi]
  rfl

theorem stepResult_length (W H r : Nat) (g : List Tile) :
    (stepResult W H r g).length = g.length := by
  simp [stepResult]

theorem stepResult_getD_sel {W H r : Nat} {g : List Tile}
    (h : selectEntity g < g.length) :
    (stepResult W H r g).getD (selectEntity g) default =
      { g.getD (selectEntity g) default with
          possible := [chosenChoice W H r g], collapsed := true } := by
  simp only [stepResult]
  rw [List.length_set, getD_map_range _ h, propagate_tile_of_skip (Or.inl rfl)]
  rw [List.getD_eq_getElem?_getD, List.getElem?_set_self h]
  rfl

theorem stepResult_getD_ne {W H r : Nat} {g : List Tile} {i : Nat}
    (hi : i < g.length) (hne : i ≠ selectEntity g) :
    (stepResult W H r g).getD i default =
      propagate_tile (chosenChoice W H r g) (g.getD (selectEntity g) default).x
        (g.getD (selectEntity g) default).y (selectEntity g) g i
        (g.getD i default) := by
  simp only [stepResult]
  rw [List.length_set, getD_map_range _ hi]
  rw [List.getD_eq_getElem?_getD (g.set _ _), List.getElem?_set_ne (Ne.symm hne),
    ← List.getD_eq_getElem?_getD]

theorem collapse_step_of_nil {W H r : Nat} {g : List Tile}
    (h : candidatesOf g = []) : collapse_step W H r g = some g := by
  unfold collapse_step
  rw [if_pos (List.isEmpty_iff.mpr h)]

theorem choicePool_ne_nil {W H : Nat} {g : List Tile} (h : candidatesOf g ≠ []) :
    choicePool W H g (selectEntity g) ≠ [] := by
  unfold choicePool
  split
  · exact (selectEntity_spec h).2.2.1
  · next hv =>
    intro hnil
    exact hv (by rw [hnil]; rfl)

theorem collapse_step_of_ne_nil {W H r : Nat} {g : List Tile}
    (h : candidatesOf g ≠ []) :
    collapse_step W H r g = some (stepResult W H r g) := by
  unfold collapse_step
  rw [if_neg (fun hc => h (List.isEmpty_iff.mp hc)),
    if_neg (fun hc => choicePool_ne_nil h (List.isEmpty_iff.mp hc))]

theorem collapse_step_ne_none (W H r : Nat) (g : List Tile) :
    collapse_step W H r g ≠ none := by
  by_cases h : candidatesOf g = []
  · rw [collapse_step_of_nil h]
    simp
  · rw [collapse_step_of_ne_nil h]
    simp

theorem collapse_step_length {W H r : Nat} {g g' : List Tile}
    (h : collapse_step W H r g = some g') : g'.length = g.length := by
  by_cases hc : candidatesOf g = []
  · rw [collapse_step_of_nil hc] at h
    obtain rfl : g = g' := Option.some.inj h
    rfl
  · rw [collapse_step_of_ne_nil hc] at h
    obtain rfl : stepResult W H r g = g' := Option.some.inj h
    exact stepResult_length W H r g

theorem validChoices_sublist (W H : Nat) (g : List Tile) (sel : Nat) :
    List.Sublist (validChoices W H g sel) (g.getD sel default).possible := by
  simp only [validChoices]
  exact List.filter_sublist _

theorem choicePool_subset {W H : Nat} {g : List Tile} {sel : Nat} :
    ∀ c ∈ choicePool W H g sel, c ∈ (g.getD sel default).possible := by
  intro c hc
  unfold choicePool at hc
  split at hc
  · exact hc
  · exact (validChoices_sublist W H g sel).subset hc

theorem chosenChoice_mem_pool {W H r : Nat} {g : List Tile}
    (h : candidatesOf g ≠ []) :
    chosenChoice W H r g ∈ choicePool W H g (selectEntity g) := by
  have hp := choicePool_ne_nil (W := W) (H := H) h
  have hlen : 0 < (choicePool W H g (selectEntity g)).length :=
    List.length_pos.mpr hp
  have hmod : r % (choicePool W H g (selectEntity g)).length <
      (choicePool W H g (selectEntity g)).length := Nat.mod_lt _ hlen
  simp only [chosenChoice]
  rw [List.getD_eq_getElem _ _ hmod]
  exact List.getElem_mem hmod

theorem chosenChoice_mem_possible {W H r : Nat} {g : List Tile}
    (h : candidatesOf g ≠ []) :
    chosenChoice W H r g ∈ (g.getD (selectEntity g) default).possible :=
  choicePool_subset _ (chosenChoice_mem_pool h)

theorem stepResult_collapsed_sel {W H r : Nat} {g : List Tile}
    (h : candidatesOf g ≠ []) :
    ((stepResult W H r g).getD (selectEntity g) default).collapsed = true := by
  rw [stepResult_getD_sel (selectEntity_spec h).1]

theorem stepResult_collapsed_ne {W H r : Nat} {g : List Tile} {i : Nat}
    (hi : i < g.length) (hne : i ≠ selectEntity g) :
    ((stepResult W H r g).getD i default).collapsed =
      (g.getD i default).collapsed := by
  rw [stepResult_getD_ne hi hne, propagate_tile_collapsed]

theorem countP_congr_getD :
    ∀ (l l' : List Tile), l.length = l'.length →
      (∀ j, j < l.length →
        (l'.getD j default).collapsed = (l.getD j default).collapsed) →
      l'.countP (fun t => t.collapsed) = l.countP (fun t => t.collapsed) := by
  intro l
  induction l with
  | nil =>
    intro l' hlen _
    cases l' with
    | nil => rfl
    | cons a2 t2 => simp at hlen
  | cons a t ih =>
    intro l' hlen hpt
    cases l' with
    | nil => simp at hlen
    | cons a2 t2 =>
      have h0 := hpt 0 (by simp)
      simp only [List.getD_cons_zero] at h0
      have htl : t2.countP (fun t => t.collapsed) = t.countP (fun t => t.collapsed) := by
        refine ih t2 (by simpa using hlen) (fun j hj => ?_)
        have := hpt (j + 1) (by simpa using Nat.succ_lt_succ hj)
        simpa using this
      simp [List.countP_cons, h0, htl]

theorem countP_flip :
    ∀ (l l' : List Tile) (s : Nat), l.length = l'.length → s < l.length →
      (l.getD s default).collapsed = false →
      (l'.getD s default).collapsed = true →
      (∀ j, j < l.length → j ≠ s →
        (l'.getD j default).collapsed = (l.getD j default).collapsed) →
      l'.countP (fun t => t.collapsed) = l.countP (fun t => t.collapsed) + 1 := by
  intro l
  induction l with
  | nil =>
    intro l' s _ hs
    exact absurd hs (by simp)
  | cons a t ih =>
    intro l' s hlen hs hf htr hpt
    cases l' with
    | nil => simp at hlen
    | cons a2 t2 =>
      cases s with
      | zero =>
        simp only [List.getD_cons_zero] at hf htr
        have htl : t2.countP (fun t => t.collapsed) = t.countP (fun t => t.collapsed) := by
          refine countP_congr_getD t t2 (by simpa using hlen) (fun j hj => ?_)
          have := hpt (j + 1) (by simpa using Nat.succ_lt_succ hj) (by simp)
          simpa using this
        simp [List.countP_cons, hf, htr, htl]
      | succ s2 =>
        have h0 := hpt 0 (by simp) (by simp)
        simp only [List.getD_cons_zero] at h0
        have hs2 : s2 < t.length := by simpa using hs
        have htl := ih t2 s2 (by simpa using hlen) hs2 (by simpa using hf)
          (by simpa using htr) (fun j hj hne => by
            have := hpt (j + 1) (by simpa using Nat.succ_lt_succ hj)
              (by simpa using hne)
            simpa using this)
        simp [List.countP_cons, h0, htl]
        omega

theorem setup_length (W H : Nat) : (setup W H).length = W * H := by
  unfold setup
  rw [List.length_flatMap]
  have hrep : List.map
      (List.length ∘ fun y => (List.range W).map (fun x =>
        ({ possible := allTileTypes, collapsed := false, x := x, y := y } : Tile)))
      (List.range H) = List.replicate H W := by
    refine List.eq_replicate_iff.mpr ⟨by simp, ?_⟩
    intro b hb
    obtain ⟨y, _, rfl⟩ := List.mem_map.mp hb
    simp
  rw [hrep, List.sum_replicate, smul_eq_mul, Nat.mul_comm]

theorem mem_setup {W H : Nat} {t : Tile} (h : t ∈ setup W H) :
    t.possible = allTileTypes ∧ t.collapsed = false := by
  simp only [setup, List.mem_flatMap, List.mem_map] at h
  obtain ⟨y, _, x, _, rfl⟩ := h
  exact ⟨rfl, rfl⟩

theorem setup_getD {W H i : Nat} (hi : i < (setup W H).length) :
    ((setup W H).getD i default).possible = allTileTypes ∧
      ((setup W H).getD i default).collapsed = false := by
  have hmem : (setup W H).getD i default ∈ setup W H := by
    rw [List.getD_eq_getElem _ _ hi]
    exact List.getElem_mem hi
  exact mem_setup hmem

theorem numCollapsed_setup (W H : Nat) : numCollapsed (setup W H) = 0 := by
  unfold numCollapsed
  rw [List.countP_eq_zero]
  intro a ha
  rw [(mem_setup ha).2]
  simp

theorem stepResult_possible_ne_nil {W H r : Nat} {g : List Tile}
    (h : candidatesOf g ≠ [])
    (hinv : ∀ i, i < g.length → (g.getD i default).possible ≠ []) :
    ∀ i, i < g.length →
      ((stepResult W H r g).getD i default).possible ≠ [] := by
  intro i hi
  by_cases hsel : i = selectEntity g
  · subst hsel
    rw [stepResult_getD_sel (selectEntity_spec h).1]
    simp
  · rw [stepResult_getD_ne hi hsel]
    by_cases hskip : i = selectEntity g ∨ (g.getD i default).collapsed
    · rw [propagate_tile_of_skip hskip]
      exact hinv i hi
    · rcases hnd : neighbor_direction (g.getD (selectEntity g) default).x
          (g.getD (selectEntity g) default).y (g.getD i default).x
          (g.getD i default).y with _ | dir
      · rw [propagate_tile_of_none hskip hnd]
        exact hinv i hi
      · rw [propagate_tile_of_some hskip hnd]
        simp only []
        split
        · intro hnil
          exact absurd hnil (by simp [allTileTypes] at hnil ⊢)
        · next hemp =>
          intro hnil
          exact hemp (by rw [hnil]; rfl)

theorem run_zero (W H : Nat) (rs : Nat → Nat) : run W H rs 0 = setup W H := rfl

theorem run_succ (W H : Nat) (rs : Nat → Nat) (n : Nat) :
    run W H rs (n + 1) =
      (collapse_step W H (rs n) (run W H rs n)).getD (run W H rs n) := rfl

theorem all_collapsed_of_countP {g : List Tile}
    (h : g.countP (fun t => t.collapsed) = g.length) :
    ∀ i, i < g.length → (g.getD i default).collapsed = true := by
  intro i hi
  have hmem : g.getD i default ∈ g := by
    rw [List.getD_eq_getElem _ _ hi]
    exact List.getElem_mem hi
  exact List.countP_eq_length.mp h _ hmem

theorem exists_uncollapsed_of_countP {g : List Tile}
    (h : g.countP (fun t => t.collapsed) ≠ g.length) :
    ∃ i, i < g.length ∧ (g.getD i default).collapsed = false := by
  have hne : ¬∀ a ∈ g, (fun t : Tile => t.collapsed) a = true :=
    fun hc => h (List.countP_eq_length.mpr hc)
  push_neg at hne
  obtain ⟨a, ha, hna⟩ := hne
  obtain ⟨i, hilt, heq⟩ := List.mem_iff_getElem.mp ha
  refine ⟨i, hilt, ?_⟩
  rw [List.getD_eq_getElem _ _ hilt, heq]
  simpa using hna

theorem run_invariant (W H : Nat) (rs : Nat → Nat) :
    ∀ n, (run W H rs n).length = W * H ∧
      (∀ i, i < (run W H rs n).length →
        ((run W H rs n).getD i default).possible ≠ []) ∧
      numCollapsed (run W H rs n) = min n (W * H) := by
  intro n
  induction n with
  | zero =>
    refine ⟨setup_length W H, ?_, ?_⟩
    · intro i hi
      rw [run_zero] at hi ⊢
      rw [(setup_getD hi).1]
      simp [allTileTypes]
    · rw [run_zero, numCollapsed_setup, Nat.zero_min]
  | succ n ih =>
    obtain ⟨hlen, hinv, hnum⟩ := ih
    by_cases hall : numCollapsed (run W H rs n) = (run W H rs n).length
    · have hcand : candidatesOf (run W H rs n) = [] :=
        candidatesOf_eq_nil_iff.mpr
          (fun i hi => Or.inl (all_collapsed_of_countP hall i hi))
      have hrun : run W H rs (n + 1) = run W H rs n := by
        rw [run_succ, collapse_step_of_nil hcand]
        rfl
      rw [hrun]
      refine ⟨hlen, hinv, ?_⟩
      rw [hnum] at hall ⊢
      rw [hlen] at hall
      omega
    · obtain ⟨i, hi, hci⟩ := exists_uncollapsed_of_countP hall
      have hcand : candidatesOf (run W H rs n) ≠ [] := by
        intro hnil
        rcases candidatesOf_eq_nil_iff.mp hnil i hi with hcol | hnilp
        · rw [hci] at hcol
          exact Bool.false_ne_true hcol
        · exact hinv i hi hnilp
      have hstep : run W H rs (n + 1) = stepResult W H (rs n) (run W H rs n) := by
        rw [run_succ, collapse_step_of_ne_nil hcand]
        rfl
      have hlen2 : (stepResult W H (rs n) (run W H rs n)).length =
          (run W H rs n).length := stepResult_length _ _ _ _
      refine ⟨?_, ?_, ?_⟩
      · rw [hstep, hlen2, hlen]
      · intro j hj
        rw [hstep] at hj ⊢
        rw [hlen2] at hj
        exact stepResult_possible_ne_nil hcand hinv j hj
      · rw [hstep]
        have hflip := countP_flip (run W H rs n)
          (stepResult W H (rs n) (run W H rs n)) (selectEntity (run W H rs n))
          hlen2.symm (selectEntity_spec hcand).1 (selectEntity_spec hcand).2.1
          (stepResult_collapsed_sel hcand)
          (fun j hj hne => stepResult_collapsed_ne hj hne)
        unfold numCollapsed at hnum hall ⊢
        rw [hflip, hnum]
        rw [hnum, hlen] at hall
        omega

theorem run_all_collapsed (W H : Nat) (rs : Nat → Nat) :
    ∀ i, i < (run W H rs (W * H)).length →
      ((run W H rs (W * H)).getD i default).collapsed = true := by
  obtain ⟨hlen, _, hnum⟩ := run_invariant W H rs (W * H)
  apply all_collapsed_of_countP
  unfold numCollapsed at hnum
  rw [hnum, hlen]
  simp

theorem run_stationary (W H : Nat) (rs : Nat → Nat) :
    ∀ m, run W H rs (W * H + m) = run W H rs (W * H) := by
  intro m
  induction m with
  | zero => rfl
  | succ m ih =>
    have hcand : candidatesOf (run W H rs (W * H + m)) = [] := by
      rw [ih]
      exact candidatesOf_eq_nil_iff.mpr
        (fun i hi => Or.inl (run_all_collapsed W H rs i hi))
    show run W H rs ((W * H + m) + 1) = run W H rs (W * H)
    rw [run_succ, collapse_step_of_nil hcand, Option.getD_some, ih]

theorem run_after {W H n : Nat} {rs : Nat → Nat} (hn : W * H ≤ n) :
    run W H rs n = run W H rs (W * H) := by
  have hst := run_stationary W H rs (n - (W * H))
  rwa [Nat.add_sub_cancel' hn] at hst

/-- C2: once a cell's `collapsed` flag is true, a `collapse_step`
invocation changes neither its (singleton) domain nor its flag. -/
theorem C2_monotonic_resolution (W H r : Nat) (g g' : List Tile) (i : Nat)
    (hstep : collapse_step W H r g = some g') (hi : i < g.length)
    (hcol : (g.getD i default).collapsed = true) :
    (g'.getD i default).possible = (g.getD i default).possible ∧
      (g'.getD i default).collapsed = true := by
  by_cases hcand : candidatesOf g = []
  · rw [collapse_step_of_nil hcand] at hstep
    obtain rfl : g = g' := Option.some.inj hstep
    exact ⟨rfl, hcol⟩
  · rw [collapse_step_of_ne_nil hcand] at hstep
    obtain rfl : stepResult W H r g = g' := Option.some.inj hstep
    have hne : i ≠ selectEntity g := by
      intro he
      rw [he, (selectEntity_spec hcand).2.1] at hcol
      exact Bool.false_ne_true hcol
    rw [stepResult_getD_ne hi hne, propagate_tile_of_skip (Or.inr hcol)]
    exact ⟨rfl, hcol⟩

theorem C2_witness :
    (([⟨[TileType.Sand], true, 0, 0⟩,
        ⟨allTileTypes, false, 0, 1⟩] : List Tile).getD 0 default).collapsed = true ∧
      ((stepResult 1 2 0 [⟨[TileType.Sand], true, 0, 0⟩,
          ⟨allTileTypes, false, 0, 1⟩]).getD 0 default).possible =
        (([⟨[TileType.Sand], true, 0, 0⟩,
            ⟨allTileTypes, false, 0, 1⟩] : List Tile).getD 0 default).possible :=
  ⟨by decide,
    (C2_monotonic_resolution 1 2 0
      [⟨[TileType.Sand], true, 0, 0⟩, ⟨allTileTypes, false, 0, 1⟩]
      (stepResult 1 2 0
        [⟨[TileType.Sand], true, 0, 0⟩, ⟨allTileTypes, false, 0, 1⟩])
      0 (by decide) (by decide) (by decide)).1⟩

/-- C3: whenever some cell is unresolved with a non-empty domain, the
step selects a cell that is unresolved with a non-empty domain, of
minimal domain size, breaking ties by the first snapshot position; the
selected cell (independent of the random seed) is the one whose flag
flips, and no other flag changes. -/
theorem C3_selection (W H r : Nat) (g g' : List Tile)
    (hex : ∃ i, i < g.length ∧ (g.getD i default).collapsed = false ∧
      (g.getD i default).possible ≠ [])
    (hstep : collapse_step W H r g = some g') :
    selectEntity g < g.length ∧
    (g.getD (selectEntity g) default).collapsed = false ∧
    (g.getD (selectEntity g) default).possible ≠ [] ∧
    (∀ j, j < g.length → (g.getD j default).collapsed = false →
      (g.getD j default).possible ≠ [] →
      (g.getD (selectEntity g) default).possible.length ≤
          (g.getD j default).possible.length ∧
        ((g.getD j default).possible.length ≤
            (g.getD (selectEntity g) default).possible.length →
          selectEntity g ≤ j)) ∧
    (g'.getD (selectEntity g) default).collapsed = true ∧
    (∀ j, j < g.length → j ≠ selectEntity g →
      (g'.getD j default).collapsed = (g.getD j default).collapsed) := by
  have hcand : candidatesOf g ≠ [] := by
    obtain ⟨i, hi, hc, hp⟩ := hex
    intro hnil
    rcases candidatesOf_eq_nil_iff.mp hnil i hi with h1 | h2
    · rw [hc] at h1
      exact Bool.false_ne_true h1
    · exact hp h2
  rw [collapse_step_of_ne_nil hcand] at hstep
  obtain rfl : stepResult W H r g = g' := Option.some.inj hstep
  obtain ⟨h1, h2, h3, _⟩ := selectEntity_spec hcand
  exact ⟨h1, h2, h3, selectEntity_min hcand, stepResult_collapsed_sel hcand,
    fun j hj hne => stepResult_collapsed_ne hj hne⟩

theorem C3_witness :
    (0 < (setup 1 2).length ∧ ((setup 1 2).getD 0 default).collapsed = false ∧
      ((setup 1 2).getD 0 default).possible ≠ []) ∧
    selectEntity (setup 1 2) < (setup 1 2).length :=
  ⟨⟨by decide, by decide, by decide⟩,
    (C3_selection 1 2 0 (setup 1 2) (stepResult 1 2 0 (setup 1 2))
      ⟨0, by decide, by decide, by decide⟩ (by decide)).1⟩

/-- C4: in every collapsing step, the slice the category is drawn from is
`valid_choices` when non-empty and the cell's full pre-filter domain
otherwise; the chosen category is drawn by `r % len` indexing (uniform
for a uniformly random seed, and every slice element is reachable), it
always lies in the cell's pre-step domain, and the step returns a grid
(no panic) in either case. -/
theorem C4_choice (W H r : Nat) (g : List Tile) (hcand : candidatesOf g ≠ []) :
    collapse_step W H r g = some (stepResult W H r g) ∧
    (validChoices W H g (selectEntity g) ≠ [] →
      choicePool W H g (selectEntity g) = validChoices W H g (selectEntity g)) ∧
    (validChoices W H g (selectEntity g) = [] →
      choicePool W H g (selectEntity g) =
        (g.getD (selectEntity g) default).possible) ∧
    chosenChoice W H r g =
      (choicePool W H g (selectEntity g)).getD
        (r % (choicePool W H g (selectEntity g)).length) default ∧
    chosenChoice W H r g ∈ choicePool W H g (selectEntity g) ∧
    chosenChoice W H r g ∈ (g.getD (selectEntity g) default).possible ∧
    (∀ c ∈ choicePool W H g (selectEntity g),
      ∃ k, k < (choicePool W H g (selectEntity g)).length ∧
        chosenChoice W H k g = c) := by
  refine ⟨collapse_step_of_ne_nil hcand, ?_, ?_, rfl,
    chosenChoice_mem_pool hcand, chosenChoice_mem_possible hcand, ?_⟩
  · intro hv
    unfold choicePool
    rw [if_neg (fun hc => hv (List.isEmpty_iff.mp hc))]
  · intro hv
    unfold choicePool
    rw [if_pos (List.isEmpty_iff.mpr hv)]
  · intro c hc
    obtain ⟨k, hk, heq⟩ := List.mem_iff_getElem.mp hc
    refine ⟨k, hk, ?_⟩
    simp only [chosenChoice]
    rw [Nat.mod_eq_of_lt hk, List.getD_eq_getElem _ _ hk, heq]

theorem C4_witness :
    candidatesOf (setup 1 1) ≠ [] ∧
      chosenChoice 1 1 0 (setup 1 1) ∈
        ((setup 1 1).getD (selectEntity (setup 1 1)) default).possible :=
  ⟨by decide, (C4_choice 1 1 0 (setup 1 1) (by decide)).2.2.2.2.2.1⟩

/-- C5: an unresolved cell other than the collapsed one either keeps a
domain that is the allowed-filter of its pre-step domain (a sublist, so
no growth) when that filter is non-empty, is reset to the full category
list exactly when the filter is empty, and is untouched when it is not an
axis-aligned neighbor of the collapsed cell. -/
theorem C5_domain_non_growth (W H r : Nat) (g g' : List Tile) (i : Nat)
    (hcand : candidatesOf g ≠ []) (hstep : collapse_step W H r g = some g')
    (hi : i < g.length) (hcol : (g.getD i default).collapsed = false)
    (hne : i ≠ selectEntity g) :
    (∀ d, neighbor_direction (g.getD (selectEntity g) default).x
        (g.getD (selectEntity g) default).y (g.getD i default).x
        (g.getD i default).y = some d →
      ((g.getD i default).possible.filter
          (fun n => allowed_neighbor (chosenChoice W H r g) n d) = [] →
        (g'.getD i default).possible = allTileTypes) ∧
      ((g.getD i default).possible.filter
          (fun n => allowed_neighbor (chosenChoice W H r g) n d) ≠ [] →
        (g'.getD i default).possible =
          (g.getD i default).possible.filter
            (fun n => allowed_neighbor (chosenChoice W H r g) n d) ∧
        List.Sublist (g'.getD i default).possible (g.getD i default).possible ∧
        (g'.getD i default).possible.length ≤
          (g.getD i default).possible.length)) ∧
    (neighbor_direction (g.getD (selectEntity g) default).x
        (g.getD (selectEntity g) default).y (g.getD i default).x
        (g.getD i default).y = none →
      g'.getD i default = g.getD i default) := by
  rw [collapse_step_of_ne_nil hcand] at hstep
  obtain rfl : stepResult W H r g = g' := Option.some.inj hstep
  have hskip : ¬(i = selectEntity g ∨ (g.getD i default).collapsed = true) := by
    rintro (h1 | h2)
    · exact hne h1
    · rw [hcol] at h2
      exact Bool.false_ne_true h2
  constructor
  · intro d hd
    rw [stepResult_getD_ne hi hne, propagate_tile_of_some hskip hd]
    constructor
    · intro hfe
      rw [hfe]
      rfl
    · intro hfne
      have hif : (if ((g.getD i default).possible.filter
            (fun n => allowed_neighbor (chosenChoice W H r g) n d)).isEmpty
          then allTileTypes
          else (g.getD i default).possible.filter
            (fun n => allowed_neighbor (chosenChoice W H r g) n d)) =
          (g.getD i default).possible.filter
            (fun n => allowed_neighbor (chosenChoice W H r g) n d) :=
        if_neg (fun hc => hfne (List.isEmpty_iff.mp hc))
      refine ⟨by simp only []; rw [hif], ?_, ?_⟩
      · simp only []
        rw [hif]
        exact List.filter_sublist _
      · simp only []
        rw [hif]
        exact (List.filter_sublist _).length_le
  · intro hd
    rw [stepResult_getD_ne hi hne, propagate_tile_of_none hskip hd]

theorem C5_witness :
    (candidatesOf [⟨[TileType.Water], false, 0, 0⟩,
        ⟨[TileType.Sand, TileType.Water], false, 0, 1⟩] ≠ [] ∧
      (1 : Nat) ≠ selectEntity [⟨[TileType.Water], false, 0, 0⟩,
        ⟨[TileType.Sand, TileType.Water], false, 0, 1⟩]) ∧
    ((stepResult 1 2 0 [⟨[TileType.Water], false, 0, 0⟩,
        ⟨[TileType.Sand, TileType.Water], false, 0, 1⟩]).getD 1 default).possible =
      (([⟨[TileType.Water], false, 0, 0⟩,
          ⟨[TileType.Sand, TileType.Water], false, 0, 1⟩] : List Tile).getD 1
            default).possible.filter
        (fun n => allowed_neighbor
          (chosenChoice 1 2 0 [⟨[TileType.Water], false, 0, 0⟩,
            ⟨[TileType.Sand, TileType.Water], false, 0, 1⟩]) n Direction.Up) :=
  ⟨⟨by decide, by decide⟩,
    (((C5_domain_non_growth 1 2 0
        [⟨[TileType.Water], false, 0, 0⟩,
          ⟨[TileType.Sand, TileType.Water], false, 0, 1⟩]
        (stepResult 1 2 0 [⟨[TileType.Water], false, 0, 0⟩,
          ⟨[TileType.Sand, TileType.Water], false, 0, 1⟩])
        1 (by decide) (by decide) (by decide) (by decide) (by decide)).1
      Direction.Up (by decide)).2 (by decide)).1⟩

/-- The grids reachable from `setup` by arbitrary sequences of
`collapse_step` invocations (with arbitrary random seeds). -/
inductive Reachable (W H : Nat) : List Tile → Prop where
  | init : Reachable W H (setup W H)
  | step {g g' : List Tile} (r : Nat) : Reachable W H g →
      collapse_step W H r g = some g' → Reachable W H g'

/-- C6: in every grid reachable from `setup` by `collapse_step`
invocations, every cell's domain is non-empty; in particular no
reachable cell is simultaneously unresolved and empty-domained. -/
theorem C6_no_empty_domain (W H : Nat) (g : List Tile) (h : Reachable W H g) :
    ∀ i, i < g.length → (g.getD i default).possible ≠ [] := by
  induction h with
  | init =>
    intro i hi
    rw [(setup_getD hi).1]
    simp [allTileTypes]
  | @step g0 g1 r hre hstep ih =>
    by_cases hcand : candidatesOf g0 = []
    · rw [collapse_step_of_nil hcand] at hstep
      obtain rfl : g0 = g1 := Option.some.inj hstep
      exact ih
    · rw [collapse_step_of_ne_nil hcand] at hstep
      obtain rfl : stepResult W H r g0 = g1 := Option.some.inj hstep
      intro i hi
      rw [stepResult_length] at hi
      exact stepResult_possible_ne_nil hcand ih i hi

theorem C6_witness : ((setup 1 1).getD 0 default).possible ≠ [] :=
  C6_no_empty_domain 1 1 (setup 1 1) Reachable.init 0 (by decide)

/-- C7: a step mutates no cell other than the collapsed cell and its
axis-aligned neighbors: with no candidate the grid is returned whole,
and any cell whose coordinates are not in one of the four neighbor
directions from the collapsed cell is returned unchanged. -/
theorem C7_frame (W H r : Nat) (g g' : List Tile)
    (hstep : collapse_step W H r g = some g') :
    (candidatesOf g = [] → g' = g) ∧
    (∀ i, i < g.length → i ≠ selectEntity g →
      neighbor_direction (g.getD (selectEntity g) default).x
        (g.getD (selectEntity g) default).y (g.getD i default).x
        (g.getD i default).y = none →
      g'.getD i default = g.getD i default) := by
  by_cases hcand : candidatesOf g = []
  · rw [collapse_step_of_nil hcand] at hstep
    obtain rfl : g = g' := Option.some.inj hstep
    exact ⟨fun _ => rfl, fun i _ _ _ => rfl⟩
  · rw [collapse_step_of_ne_nil hcand] at hstep
    obtain rfl : stepResult W H r g = g' := Option.some.inj hstep
    refine ⟨fun hc => absurd hc hcand, ?_⟩
    intro i hi hne hd
    rw [stepResult_getD_ne hi hne]
    by_cases hskip : i = selectEntity g ∨ (g.getD i default).collapsed = true
    · exact propagate_tile_of_skip hskip
    · exact propagate_tile_of_none hskip hd

theorem C7_witness :
    (2 : Nat) ≠ selectEntity (setup 1 3) ∧
      (stepResult 1 3 0 (setup 1 3)).getD 2 default =
        (setup 1 3).getD 2 default :=
  ⟨by decide,
    (C7_frame 1 3 0 (setup 1 3) (stepResult 1 3 0 (setup 1 3)) (by decide)).2
      2 (by decide) (by decide) (by decide)⟩

/-- C8 (corrected): a step that collapses a cell to Water filters each
unresolved neighbor's domain by `allowed(Water, ·, d)`; when that filter
is non-empty Grass is removed, and Sand (resp. Water), being allowed,
survive if present — Sand in particular prevents the reset; but when the
filter is empty (the neighbor held neither Sand nor Water) the domain is
reset to the full category list, so Grass then remains. -/
theorem C8_water_propagation (W H r : Nat) (g g' : List Tile) (i : Nat)
    (d : Direction) (hcand : candidatesOf g ≠ [])
    (hstep : collapse_step W H r g = some g')
    (hw : chosenChoice W H r g = TileType.Water)
    (hi : i < g.length) (hne : i ≠ selectEntity g)
    (hcol : (g.getD i default).collapsed = false)
    (hd : neighbor_direction (g.getD (selectEntity g) default).x
      (g.getD (selectEntity g) default).y (g.getD i default).x
      (g.getD i default).y = some d) :
    ((g.getD i default).possible.filter
        (fun n => allowed_neighbor TileType.Water n d) = [] →
      (g'.getD i default).possible = allTileTypes) ∧
    ((g.getD i default).possible.filter
        (fun n => allowed_neighbor TileType.Water n d) ≠ [] →
      TileType.Grass ∉ (g'.getD i default).possible) ∧
    (TileType.Sand ∈ (g.getD i default).possible →
      TileType.Sand ∈ (g'.getD i default).possible ∧
        TileType.Grass ∉ (g'.getD i default).possible) ∧
    (TileType.Water ∈ (g.getD i default).possible →
      TileType.Water ∈ (g'.getD i default).possible) := by
  rw [collapse_step_of_ne_nil hcand] at hstep
  obtain rfl : stepResult W H r g = g' := Option.some.inj hstep
  have hskip : ¬(i = selectEntity g ∨ (g.getD i default).collapsed = true) := by
    rintro (h1 | h2)
    · exact hne h1
    · rw [hcol] at h2
      exact Bool.false_ne_true h2
  have hposs : ((stepResult W H r g).getD i default).possible =
      if ((g.getD i default).possible.filter
          (fun n => allowed_neighbor TileType.Water n d)).isEmpty
      then allTileTypes
      else (g.getD i default).possible.filter
        (fun n => allowed_neighbor TileType.Water n d) := by
    rw [stepResult_getD_ne hi hne, propagate_tile_of_some hskip hd, hw]
  have hGrassF : TileType.Grass ∉ (g.getD i default).possible.filter
      (fun n => allowed_neighbor TileType.Water n d) := by
    intro hmem
    have h2 := (List.mem_filter.mp hmem).2
    have h3 : allowed_neighbor TileType.Water TileType.Grass d = false := rfl
    rw [h3] at h2
    exact Bool.false_ne_true h2
  have hifne : ∀ hne2 : (g.getD i default).possible.filter
      (fun n => allowed_neighbor TileType.Water n d) ≠ [],
      ((stepResult W H r g).getD i default).possible =
        (g.getD i default).possible.filter
          (fun n => allowed_neighbor TileType.Water n d) := by
    intro hne2
    rw [hposs, if_neg (fun hc => hne2 (List.isEmpty_iff.mp hc))]
  refine ⟨?_, ?_, ?_, ?_⟩
  · intro hfe
    rw [hposs, hfe]
    rfl
  · intro hfne
    rw [hifne hfne]
    exact hGrassF
  · intro hS
    have hSF : TileType.Sand ∈ (g.getD i default).possible.filter
        (fun n => allowed_neighbor TileType.Water n d) :=
      List.mem_filter.mpr ⟨hS, rfl⟩
    have hfne := List.ne_nil_of_mem hSF
    rw [hifne hfne]
    exact ⟨hSF, hGrassF⟩
  · intro hWw
    have hWF : TileType.Water ∈ (g.getD i default).possible.filter
        (fun n => allowed_neighbor TileType.Water n d) :=
      List.mem_filter.mpr ⟨hWw, rfl⟩
    rw [hifne (List.ne_nil_of_mem hWF)]
    exact hWF

theorem C8_counterexample :
    chosenChoice 1 2 0 [⟨[TileType.Water], false, 0, 0⟩,
        ⟨[TileType.Grass], false, 0, 1⟩] = TileType.Water ∧
    selectEntity [⟨[TileType.Water], false, 0, 0⟩,
        ⟨[TileType.Grass], false, 0, 1⟩] = 0 ∧
    neighbor_direction 0 0 0 1 = some Direction.Up ∧
    TileType.Grass ∈ (([⟨[TileType.Water], false, 0, 0⟩,
        ⟨[TileType.Grass], false, 0, 1⟩] : List Tile).getD 1 default).possible ∧
    collapse_step 1 2 0 [⟨[TileType.Water], false, 0, 0⟩,
        ⟨[TileType.Grass], false, 0, 1⟩] =
      some (stepResult 1 2 0 [⟨[TileType.Water], false, 0, 0⟩,
        ⟨[TileType.Grass], false, 0, 1⟩]) ∧
    TileType.Grass ∈ ((stepResult 1 2 0 [⟨[TileType.Water], false, 0, 0⟩,
        ⟨[TileType.Grass], false, 0, 1⟩]).getD 1 default).possible := by
  decide

theorem C8_witness :
    TileType.Sand ∈ (([⟨[TileType.Water], false, 0, 0⟩,
        ⟨[TileType.Sand, TileType.Grass], false, 0, 1⟩] : List Tile).getD 1
          default).possible ∧
    TileType.Sand ∈ ((stepResult 1 2 0 [⟨[TileType.Water], false, 0, 0⟩,
        ⟨[TileType.Sand, TileType.Grass], false, 0, 1⟩]).getD 1
          default).possible ∧
    TileType.Grass ∉ ((stepResult 1 2 0 [⟨[TileType.Water], false, 0, 0⟩,
        ⟨[TileType.Sand, TileType.Grass], false, 0, 1⟩]).getD 1
          default).possible :=
  ⟨by decide,
    (C8_water_propagation 1 2 0
      [⟨[TileType.Water], false, 0, 0⟩,
        ⟨[TileType.Sand, TileType.Grass], false, 0, 1⟩]
      (stepResult 1 2 0 [⟨[TileType.Water], false, 0, 0⟩,
        ⟨[TileType.Sand, TileType.Grass], false, 0, 1⟩])
      1 Direction.Up (by decide) (by decide) (by decide) (by decide)
      (by decide) (by decide) (by decide)).2.2.1 (by decide)⟩

/-- C9 (corrected): `setup` performs no input validation and cannot
fail: for zero dimensions it silently returns the empty grid, on which
`collapse_step` still operates as a no-op; for any dimensions it returns
a grid of W*H cells, each carrying the full category list with
`collapsed = false`. -/
theorem C9_create_grid (W H : Nat) :
    (setup W H).length = W * H ∧
    (∀ t ∈ setup W H, t.possible = allTileTypes ∧ t.collapsed = false) ∧
    (W = 0 ∨ H = 0 → setup W H = [] ∧
      ∀ r, collapse_step W H r (setup W H) = some (setup W H)) := by
  refine ⟨setup_length W H, fun t ht => mem_setup ht, ?_⟩
  intro h0
  have hnil : setup W H = [] := by
    have hl := setup_length W H
    rcases h0 with rfl | rfl
    · rw [Nat.zero_mul] at hl
      exact List.length_eq_zero.mp hl
    · rw [Nat.mul_zero] at hl
      exact List.length_eq_zero.mp hl
  have hcand : candidatesOf (setup W H) = [] := by
    rw [hnil]
    rfl
  exact ⟨hnil, fun r => collapse_step_of_nil hcand⟩

theorem C9_counterexample :
    setup 0 5 = [] ∧ collapse_step 0 5 0 (setup 0 5) = some (setup 0 5) := by
  decide

theorem C9_witness :
    (setup 2 2).length = 2 * 2 ∧
      ((setup 2 2).getD 0 default).possible = allTileTypes ∧
      setup 0 3 = [] :=
  ⟨(C9_create_grid 2 2).1,
    ((C9_create_grid 2 2).2.1 ((setup 2 2).getD 0 default) (by decide)).1,
    ((C9_create_grid 0 3).2.2 (Or.inl rfl)).1⟩

/-- C10: Sand is allowed next to every category in both roles and in
every direction; consequently a step never removes Sand from the domain
of a cell other than the collapsed one, and a neighbor whose pre-step
domain contains Sand never triggers the empty-domain reset (its post
domain is exactly the filter). -/
theorem C10_sand_universal (W H r : Nat) (g g' : List Tile)
    (hstep : collapse_step W H r g = some g') :
    (∀ c d, allowed_neighbor c TileType.Sand d = true ∧
      allowed_neighbor TileType.Sand c d = true) ∧
    (∀ i, i < g.length → i ≠ selectEntity g →
      TileType.Sand ∈ (g.getD i default).possible →
      TileType.Sand ∈ (g'.getD i default).possible) ∧
    (∀ i d, i < g.length → i ≠ selectEntity g →
      (g.getD i default).collapsed = false →
      neighbor_direction (g.getD (selectEntity g) default).x
        (g.getD (selectEntity g) default).y (g.getD i default).x
        (g.getD i default).y = some d →
      TileType.Sand ∈ (g.getD i default).possible →
      (g.getD i default).possible.filter
          (fun n => allowed_neighbor (chosenChoice W H r g) n d) ≠ [] ∧
        (g'.getD i default).possible =
          (g.getD i default).possible.filter
            (fun n => allowed_neighbor (chosenChoice W H r g) n d)) := by
  have hAS : ∀ (c : TileType) (d : Direction),
      allowed_neighbor c TileType.Sand d = true := by
    intro c d
    cases c <;> rfl
  by_cases hcand : candidatesOf g = []
  · rw [collapse_step_of_nil hcand] at hstep
    obtain rfl : g = g' := Option.some.inj hstep
    refine ⟨fun c d => ⟨hAS c d, rfl⟩, fun i _ _ h => h, ?_⟩
    intro i d hi hne hcol hd hS
    exfalso
    rcases candidatesOf_eq_nil_iff.mp hcand i hi with h1 | h2
    · rw [hcol] at h1
      exact Bool.false_ne_true h1
    · rw [h2] at hS
      exact List.not_mem_nil _ hS
  · rw [collapse_step_of_ne_nil hcand] at hstep
    obtain rfl : stepResult W H r g = g' := Option.some.inj hstep
    refine ⟨fun c d => ⟨hAS c d, rfl⟩, ?_, ?_⟩
    · intro i hi hne hS
      rw [stepResult_getD_ne hi hne]
      by_cases hskip : i = selectEntity g ∨ (g.getD i default).collapsed = true
      · rw [propagate_tile_of_skip hskip]
        exact hS
      · rcases hnd : neighbor_direction (g.getD (selectEntity g) default).x
            (g.getD (selectEntity g) default).y (g.getD i default).x
            (g.getD i default).y with _ | dd
        · rw [propagate_tile_of_none hskip hnd]
          exact hS
        · rw [propagate_tile_of_some hskip hnd]
          have hSF : TileType.Sand ∈ (g.getD i default).possible.filter
              (fun n => allowed_neighbor (chosenChoice W H r g) n dd) :=
            List.mem_filter.mpr ⟨hS, hAS _ _⟩
          have hfne := List.ne_nil_of_mem hSF
          have hif : (if ((g.getD i default).possible.filter
                (fun n => allowed_neighbor (chosenChoice W H r g) n dd)).isEmpty
              then allTileTypes
              else (g.getD i default).possible.filter
                (fun n => allowed_neighbor (chosenChoice W H r g) n dd)) =
              (g.getD i default).possible.filter
                (fun n => allowed_neighbor (chosenChoice W H r g) n dd) :=
            if_neg (fun hc => hfne (List.isEmpty_iff.mp hc))
          show TileType.Sand ∈ (if ((g.getD i default).possible.filter
              (fun n => allowed_neighbor (chosenChoice W H r g) n dd)).isEmpty
            then allTileTypes
            else (g.getD i default).possible.filter
              (fun n => allowed_neighbor (chosenChoice W H r g) n dd))
          rw [hif]
          exact hSF
    · intro i d hi hne hcol hd hS
      have hskip : ¬(i = selectEntity g ∨ (g.getD i default).collapsed = true) := by
        rintro (h1 | h2)
        · exact hne h1
        · rw [hcol] at h2
          exact Bool.false_ne_true h2
      have hSF : TileType.Sand ∈ (g.getD i default).possible.filter
          (fun n => allowed_neighbor (chosenChoice W H r g) n d) :=
        List.mem_filter.mpr ⟨hS, hAS _ _⟩
      have hfne := List.ne_nil_of_mem hSF
      refine ⟨hfne, ?_⟩
      rw [stepResult_getD_ne hi hne, propagate_tile_of_some hskip hd]
      show (if ((g.getD i default).possible.filter
            (fun n => allowed_neighbor (chosenChoice W H r g) n d)).isEmpty
          then allTileTypes
          else (g.getD i default).possible.filter
            (fun n => allowed_neighbor (chosenChoice W H r g) n d)) =
          (g.getD i default).possible.filter
            (fun n => allowed_neighbor (chosenChoice W H r g) n d)
      exact if_neg (fun hc => hfne (List.isEmpty_iff.mp hc))

theorem C10_witness :
    TileType.Sand ∈ (([⟨[TileType.Grass], false, 0, 0⟩,
        ⟨[TileType.Sand, TileType.Water], false, 0, 1⟩] : List Tile).getD 1
          default).possible ∧
    TileType.Sand ∈ ((stepResult 1 2 0 [⟨[TileType.Grass], false, 0, 0⟩,
        ⟨[TileType.Sand, TileType.Water], false, 0, 1⟩]).getD 1
          default).possible :=
  ⟨by decide,
    (C10_sand_universal 1 2 0
      [⟨[TileType.Grass], false, 0, 0⟩,
        ⟨[TileType.Sand, TileType.Water], false, 0, 1⟩]
      (stepResult 1 2 0 [⟨[TileType.Grass], false, 0, 0⟩,
        ⟨[TileType.Sand, TileType.Water], false, 0, 1⟩])
      (by decide)).2.1 1 (by decide) (by decide) (by decide)⟩

/-- C1: for W, H ≥ 1, repeated `collapse_step` invocations from `setup`
resolve the whole grid in exactly W*H invocations: the number of resolved
cells after n ≤ W*H invocations is exactly n, each invocation before that
point flips exactly one cell's flag from false to true and no other flag,
after W*H invocations every cell is resolved, and every later invocation
returns the grid unchanged. -/
theorem C1_termination (W H : Nat) (rs : Nat → Nat) (_hW : 1 ≤ W)
    (_hH : 1 ≤ H) :
    (∀ n, n ≤ W * H → numCollapsed (run W H rs n) = n) ∧
    (∀ i, i < (run W H rs (W * H)).length →
      ((run W H rs (W * H)).getD i default).collapsed = true) ∧
    (∀ n, n < W * H → ∃ i, i < (run W H rs n).length ∧
      ((run W H rs n).getD i default).collapsed = false ∧
      ((run W H rs (n + 1)).getD i default).collapsed = true ∧
      (∀ j, j < (run W H rs n).length → j ≠ i →
        ((run W H rs (n + 1)).getD j default).collapsed =
          ((run W H rs n).getD j default).collapsed)) ∧
    (∀ n, W * H ≤ n →
      collapse_step W H (rs n) (run W H rs n) = some (run W H rs n) ∧
        run W H rs (n + 1) = run W H rs n) := by
  refine ⟨?_, run_all_collapsed W H rs, ?_, ?_⟩
  · intro n hn
    rw [(run_invariant W H rs n).2.2]
    exact Nat.min_eq_left hn
  · intro n hn
    obtain ⟨hlen, hinv, hnum⟩ := run_invariant W H rs n
    have hall : numCollapsed (run W H rs n) ≠ (run W H rs n).length := by
      rw [hnum, hlen]
      omega
    obtain ⟨i0, hi0, hci0⟩ := exists_uncollapsed_of_countP hall
    have hcand : candidatesOf (run W H rs n) ≠ [] := by
      intro hnil
      rcases candidatesOf_eq_nil_iff.mp hnil i0 hi0 with h1 | h2
      · rw [hci0] at h1
        exact Bool.false_ne_true h1
      · exact hinv i0 hi0 h2
    have hstep : run W H rs (n + 1) = stepResult W H (rs n) (run W H rs n) := by
      rw [run_succ, collapse_step_of_ne_nil hcand]
      rfl
    refine ⟨selectEntity (run W H rs n), (selectEntity_spec hcand).1,
      (selectEntity_spec hcand).2.1, ?_, ?_⟩
    · rw [hstep]
      exact stepResult_collapsed_sel hcand
    · intro j hj hne
      rw [hstep]
      exact stepResult_collapsed_ne hj hne
  · intro n hn
    have hrn : run W H rs n = run W H rs (W * H) := run_after hn
    have hcand : candidatesOf (run W H rs n) = [] := by
      rw [hrn]
      exact candidatesOf_eq_nil_iff.mpr
        (fun i hi => Or.inl (run_all_collapsed W H rs i hi))
    refine ⟨collapse_step_of_nil hcand, ?_⟩
    rw [run_succ, collapse_step_of_nil hcand, Option.getD_some]

theorem C1_witness : numCollapsed (run 1 1 (fun k => k) 1) = 1 :=
  (C1_termination 1 1 (fun k => k) (by decide) (by decide)).1 1 (by decide)

end WFC
